import Mathlib

/-!
Verification development for the invern-backoffice repository.

The development shallowly embeds the parts of the code that the claims
touch:

* the field-connection propagation mechanism of
  `src/components/domain/DomainFormPage.tsx` (`processConnection`,
  `runCalculations`, the re-entrancy guard `isProcessingConnectionRef`),
* the API client error unwrapping of `src/services/api.ts`
  (`handleResponse`),
* the orders list pagination of `src/pages/OrdersPage.tsx`,
* the exchange-rate lookup `getCurrencyRate` of
  `src/services/currency-rate.ts`.

JavaScript primitive values are modelled by `JSValue`, with numbers as
exact rationals.  The live react-hook-form state is modelled as an
association list from field names to values; `setValue` calls are
additionally recorded as explicit write operations carrying their
`shouldValidate` flag, toasts as a list of message strings, and
calculation-status assignments as a trace, so that the claims about
writes, notifications and status transitions can be stated directly.
-/

namespace InvernBackoffice

/-- JavaScript primitive values as they occur in the form engine.
Numbers are modelled as exact rationals. -/
inductive JSValue where
  | str (s : String)
  | num (q : Rat)
  | bool (b : Bool)
  | null
  | undefined
deriving DecidableEq, Repr

/-- The JavaScript `typeof` operator restricted to `JSValue`. -/
def typeOf : JSValue → String
  | .str _ => "string"
  | .num _ => "number"
  | .bool _ => "boolean"
  | .null => "object"
  | .undefined => "undefined"

/-- The zero-value fallback of the fan-out loop in `processConnection`:
`fieldType === "number" ? 0 : fieldType === "boolean" ? false : ""`. -/
def zeroOfType (ty : String) : JSValue :=
  if ty = "number" then .num 0
  else if ty = "boolean" then .bool false
  else .str ""

/-- The JavaScript expression `v ?? null`. -/
def coalesceNull (v : JSValue) : JSValue :=
  match v with
  | .null => .null
  | .undefined => .null
  | w => w

/-- The trigger-presence test of `runCalculations`:
`inputValue !== undefined && inputValue !== null && inputValue !== ""`. -/
def presentB (v : JSValue) : Bool :=
  !(v = JSValue.undefined ∨ v = JSValue.null ∨ v = JSValue.str "")

/-- The test `v === null || v === undefined` used on calculation results. -/
def nullishB (v : JSValue) : Bool :=
  v = JSValue.null ∨ v = JSValue.undefined

/-- The JavaScript string expression `a || b` (empty string is falsy). -/
def jsOrS (a b : String) : String :=
  if a = "" then b else a

/-- `String.prototype.toLowerCase`, modelled structurally over the
character list (ASCII case mapping). -/
def jsToLower (s : String) : String := String.mk (s.data.map Char.toLower)

/-- `String.prototype.toUpperCase`, modelled structurally over the
character list (ASCII case mapping). -/
def jsToUpper (s : String) : String := String.mk (s.data.map Char.toUpper)

/-- Live form values, keyed by field name.  An absent key reads as
`undefined`, as `getValues` does for an unregistered field. -/
abbrev FormSt := List (String × JSValue)

/-- A row of a connection's `lookupSet` (a `Partial<TFormValues>` object);
an absent key reads as `undefined`. -/
abbrev Row := List (String × JSValue)

/-- Property read on an object: absent key gives `undefined`. -/
def getVal : List (String × JSValue) → String → JSValue
  | [], _ => .undefined
  | p :: rest, k => if p.1 = k then p.2 else getVal rest k

/-- Property write on an object (replace an existing binding, else append). -/
def setVal : List (String × JSValue) → String → JSValue → List (String × JSValue)
  | [], k, v => [(k, v)]
  | p :: rest, k, v => if p.1 = k then (k, v) :: rest else p :: setVal rest k v

/-- Embedding of `FieldConfig` (`src/types/form-config.ts`): the parts of a
field configuration that `processConnection` and `runCalculations` read. -/
structure FieldConfig where
  name : String
  label : String
  defaultValue : JSValue
  transformInput : Option (JSValue → JSValue)

/-- `config.fields.find((f) => f.name === fieldName)` (`getFieldConfig`). -/
def getFieldConfig (fields : List FieldConfig) (t : String) : Option FieldConfig :=
  fields.find? (fun f => f.name == t)

/-- `fieldConfig?.defaultValue`: `undefined` when the field has no
configuration entry. -/
def defaultOf (fields : List FieldConfig) (t : String) : JSValue :=
  match getFieldConfig fields t with
  | some fc => fc.defaultValue
  | none => .undefined

/-- `fieldConfig?.label`, read as a string (`undefined` counts as `""`,
which is falsy under `jsOrS`). -/
def labelOf (fields : List FieldConfig) (t : String) : String :=
  match getFieldConfig fields t with
  | some fc => fc.label
  | none => ""

/-- `if (fieldConfig?.transform?.input) v = fieldConfig.transform.input(v)`. -/
def applyTransform (fc : Option FieldConfig) (v : JSValue) : JSValue :=
  match fc with
  | some c =>
    match c.transformInput with
    | some f => f v
    | none => v
  | none => v

/-- Outcome of awaiting a field calculation's `calculator` promise: it
resolves to a value (possibly `null`/`undefined`) or rejects. -/
inductive CalcOutcome where
  | ok (v : JSValue)
  | thrown
deriving DecidableEq, Repr

/-- Embedding of `FieldCalculation` (`src/types/form-config.ts`). -/
structure FieldCalculation where
  targetField : String
  calculator : JSValue → CalcOutcome
  calculationTriggerField : String
  errorMessage : Option String

/-- Embedding of `FieldConnection` (`src/types/form-config.ts`).  The
optional `calculations` array is modelled as a plain list (an omitted
array behaves as the empty list). -/
structure FieldConnection where
  sourceField : String
  targetFields : List String
  lookupSet : List Row
  clearTargetsOnNoMatch : Option Bool
  calculations : List FieldCalculation

/-- The `CalculationStatus` union of `DomainFormPage.tsx`. -/
inductive CalcStatus where
  | idle
  | pending
  | success
  | error
deriving DecidableEq, Repr

/-- The `calculationStateRef` contents, keyed by target field name. -/
abbrev CalcSt := List (String × CalcStatus)

/-- Status read with the UI's fallback `calculationState[field] || "idle"`. -/
def statusVal : List (String × CalcStatus) → String → CalcStatus
  | [], _ => .idle
  | p :: rest, t => if p.1 = t then p.2 else statusVal rest t

/-- Status assignment `newCalculationState[target] = s`. -/
def setStatus : List (String × CalcStatus) → String → CalcStatus → List (String × CalcStatus)
  | [], t, s => [(t, s)]
  | p :: rest, t, s => if p.1 = t then (t, s) :: rest else p :: setStatus rest t s

/-- One recorded `setValue` call: target field, written value, and whether
the call was issued with `shouldValidate: true`. -/
structure WriteOp where
  field : String
  value : JSValue
  validate : Bool
deriving DecidableEq, Repr

/-- Result of a propagation step: the final form values and calculation
state, plus the recorded `setValue` calls, toast descriptions, the trace
of calculation-status assignments, and the inputs passed to calculators. -/
structure RunResult where
  state : FormSt
  calcState : CalcSt
  writes : List WriteOp
  toasts : List String
  trace : List (String × CalcStatus)
  calls : List JSValue

/-- The toast description raised in the `catch` branch of `runCalculations`:
`errorMessage || "Failed to calculate value for <label or target>."`. -/
def calcToastMsg (fields : List FieldConfig) (c : FieldCalculation) : String :=
  jsOrS (c.errorMessage.getD "")
    ("Failed to calculate value for " ++
      jsOrS (labelOf fields c.targetField) c.targetField ++ ".")

/-- Embedding of `runCalculations` (`DomainFormPage.tsx`, lines 137-252):
for each calculation in order, read the trigger value from the matched
row; when present, mark the status `pending`, run the calculator, and on
a non-nullish result apply the field's input transform and mark
`success`, on a nullish result write the configured default (`?? null`)
and mark `error`, and on a thrown result write the default, mark `error`
and raise a toast; when absent, write the default and mark `idle`.  All
`setValue` calls here pass `shouldValidate: true`. -/
def runCalculations (fields : List FieldConfig) (row : Row) :
    List FieldCalculation → FormSt → CalcSt → RunResult
  | [], st, cs => ⟨st, cs, [], [], [], []⟩
  | c :: rest, st, cs =>
    let t := c.targetField
    let input := getVal row c.calculationTriggerField
    if presentB input then
      let cs1 := setStatus cs t .pending
      match c.calculator input with
      | .ok v =>
        if nullishB v then
          let dv := coalesceNull (defaultOf fields t)
          let r := runCalculations fields row rest (setVal st t dv) (setStatus cs1 t .error)
          ⟨r.state, r.calcState, ⟨t, dv, true⟩ :: r.writes, r.toasts,
            (t, .pending) :: (t, .error) :: r.trace, input :: r.calls⟩
        else
          let tv := applyTransform (getFieldConfig fields t) v
          let r := runCalculations fields row rest (setVal st t tv) (setStatus cs1 t .success)
          ⟨r.state, r.calcState, ⟨t, tv, true⟩ :: r.writes, r.toasts,
            (t, .pending) :: (t, .success) :: r.trace, input :: r.calls⟩
      | .thrown =>
        let dv := coalesceNull (defaultOf fields t)
        let r := runCalculations fields row rest (setVal st t dv) (setStatus cs1 t .error)
        ⟨r.state, r.calcState, ⟨t, dv, true⟩ :: r.writes,
          calcToastMsg fields c :: r.toasts,
          (t, .pending) :: (t, .error) :: r.trace, input :: r.calls⟩
    else
      let dv := coalesceNull (defaultOf fields t)
      let r := runCalculations fields row rest (setVal st t dv) (setStatus cs t .idle)
      ⟨r.state, r.calcState, ⟨t, dv, true⟩ :: r.writes, r.toasts,
        (t, .idle) :: r.trace, r.calls⟩

/-- The lookup comparison of `processConnection` (lines 281-290): exact
equality, except case-insensitive equality when both values are strings. -/
def connectionEq (sourceValue itemValue : JSValue) : Bool :=
  match sourceValue, itemValue with
  | .str s, .str t => jsToLower t == jsToLower s
  | a, b => a == b

/-- `connection.lookupSet.find(...)`: the first row whose `sourceField`
entry compares equal (under `connectionEq`) to the source value. -/
def findMatch (src : String) (rows : List Row) (v : JSValue) : Option Row :=
  rows.find? (fun item => connectionEq v (getVal item src))

/-- The value the match branch of `processConnection` computes for one
target field: the matched row's value when defined, else the field's
configured default, else a zero value keyed on `typeof` of the default;
finally the field's input transform is applied. -/
def fanOutValue (fields : List FieldConfig) (row : Row) (t : String) : JSValue :=
  let dcfg := defaultOf fields t
  let vm := getVal row t
  let v1 := if vm = JSValue.undefined then dcfg else vm
  let v2 := if v1 = JSValue.undefined then zeroOfType (typeOf dcfg) else v1
  applyTransform (getFieldConfig fields t) v2

/-- The `connection.targetFields.forEach` loop of the match branch:
skip the source field, compute `fanOutValue`, and call `setValue` with
`shouldValidate: false` only when the value differs from the current one. -/
def fanOut (src : String) (fields : List FieldConfig) (row : Row) :
    List String → FormSt → FormSt × List WriteOp
  | [], st => (st, [])
  | t :: ts, st =>
    if t = src then fanOut src fields row ts st
    else
      let v := fanOutValue fields row t
      if getVal st t = v then fanOut src fields row ts st
      else
        let r := fanOut src fields row ts (setVal st t v)
        (r.1, ⟨t, v, false⟩ :: r.2)

/-- The value written by the no-match clearing branch for one target:
`fieldConfig?.defaultValue ?? null`, then the field's input transform. -/
def clearedValue (fields : List FieldConfig) (t : String) : JSValue :=
  applyTransform (getFieldConfig fields t) (coalesceNull (defaultOf fields t))

/-- The `allTargets.forEach` loop of the no-match branch: skip the source
field, write the cleared value (`shouldValidate: false`) when it differs
from the current value, and set the calculation status of calculation
targets back to `idle`. -/
def clearTargets (src : String) (fields : List FieldConfig)
    (calcs : List FieldCalculation) :
    List String → FormSt → CalcSt → FormSt × CalcSt × List WriteOp
  | [], st, cs => (st, cs, [])
  | t :: ts, st, cs =>
    if t = src then clearTargets src fields calcs ts st cs
    else
      let dv := clearedValue fields t
      let stepSt := if getVal st t = dv then st else setVal st t dv
      let w : List WriteOp := if getVal st t = dv then [] else [⟨t, dv, false⟩]
      let stepCs := if calcs.any (fun c => c.targetField == t) then setStatus cs t .idle else cs
      let r := clearTargets src fields calcs ts stepSt stepCs
      (r.1, r.2.1, w ++ r.2.2)

/-- `[...connection.targetFields, ...(connection.calculations?.map((c) =>
c.targetField) ?? [])]`. -/
def allTargets (conn : FieldConnection) : List String :=
  conn.targetFields ++ conn.calculations.map (fun c => c.targetField)

/-- The body of `processConnection` once the lookup result is known:
on a match, fan out the matched row into the target fields and then run
the attached calculations; on no match, clear targets unless
`clearTargetsOnNoMatch` is explicitly `false`. -/
def processWithMatch (conn : FieldConnection) (fields : List FieldConfig)
    (st : FormSt) (cs : CalcSt) : Option Row → RunResult
  | some row =>
    let f := fanOut conn.sourceField fields row conn.targetFields st
    if conn.calculations.length > 0 then
      let rc := runCalculations fields row conn.calculations f.1 cs
      ⟨rc.state, rc.calcState, f.2 ++ rc.writes, rc.toasts, rc.trace, rc.calls⟩
    else
      ⟨f.1, cs, f.2, [], [], []⟩
  | none =>
    if conn.clearTargetsOnNoMatch = some false then ⟨st, cs, [], [], [], []⟩
    else
      let c := clearTargets conn.sourceField fields conn.calculations (allTargets conn) st cs
      ⟨c.1, c.2.1, c.2.2, [], [], []⟩

/-- Embedding of `processConnection` (`DomainFormPage.tsx`, lines
278-415): look the current source value up in the connection's
`lookupSet` and dispatch on the result. -/
def processConnection (conn : FieldConnection) (fields : List FieldConfig)
    (st : FormSt) (cs : CalcSt) : RunResult :=
  processWithMatch conn fields st cs
    (findMatch conn.sourceField conn.lookupSet (getVal st conn.sourceField))

/-- Events of the field-connection re-entrancy mechanism, as seen by the
single-threaded event loop: a user-initiated source-field change arrives,
or an in-flight `processConnection` cycle finishes (its `finally` block
runs), successfully or with an exception. -/
inductive GuardEvent where
  | change
  | complete (ok : Bool)
deriving DecidableEq, Repr

/-- Guard-relevant state of one form instance: the value of
`isProcessingConnectionRef.current` and the number of in-flight
`processConnection` cycles. -/
structure GuardState where
  processing : Bool
  running : Nat
deriving DecidableEq, Repr

/-- One event-loop step of the guard logic (`DomainFormPage.tsx`, lines
273-275 and 411-414): a change event is dropped when the flag is set,
otherwise it sets the flag and starts a cycle; a completing cycle clears
the flag in its `finally` block whatever its outcome. -/
def guardStep (s : GuardState) : GuardEvent → GuardState
  | .change => if s.processing then s else ⟨true, s.running + 1⟩
  | .complete _ => ⟨false, s.running - 1⟩

/-- The guard state after a sequence of events, starting from a freshly
mounted form (flag clear, no cycle in flight). -/
def runGuard (es : List GuardEvent) : GuardState :=
  es.foldl guardStep ⟨false, 0⟩

/-- The parsed JSON body of a backend error response, restricted to the
fields `handleResponse` reads. -/
structure ParsedBody where
  message : Option String
  issues : Option (List String)
deriving DecidableEq, Repr

/-- A `fetch` response as `handleResponse` sees it: the `ok` flag, the
status code, and the JSON body (`none` when `response.json()` rejects). -/
structure HttpResponse where
  ok : Bool
  status : Nat
  body : Option ParsedBody
deriving DecidableEq, Repr

/-- The status fallback `"HTTP error! status: " + status`. -/
def statusFallback (status : Nat) : String :=
  "HTTP error! status: " ++ toString status

/-- The error message built by `handleResponse` (`src/services/api.ts`,
lines 48-52): `responseData.message || (responseData.issues &&
responseData.issues.join(", ")) || fallback`, with JavaScript truthiness
(an absent field and the empty string are falsy; a present `issues`
array, even empty, is truthy but may join to the falsy empty string). -/
def responseErrMsg (b : ParsedBody) (status : Nat) : String :=
  if b.message.getD "" ≠ "" then b.message.getD ""
  else
    match b.issues with
    | some is =>
      if String.intercalate ", " is ≠ "" then String.intercalate ", " is
      else statusFallback status
    | none => statusFallback status

/-- Embedding of `handleResponse` (`src/services/api.ts`, lines 43-55):
a body that fails to parse is replaced by `{}`; a non-ok response throws
an `Error` carrying `responseErrMsg`; an ok response returns the body. -/
def handleResponse (r : HttpResponse) : Except String ParsedBody :=
  let responseData := r.body.getD ⟨none, none⟩
  if r.ok then .ok responseData
  else .error (responseErrMsg responseData r.status)

/-- `PAGE_SIZE` of the orders list page. -/
def ordersPageSize : Nat := 10

/-- `Math.ceil(count / PAGE_SIZE)` as computed by `loadOrders`. -/
def totalPagesAfterLoad (count : Nat) : Nat :=
  (count + ordersPageSize - 1) / ordersPageSize

/-- `setHasMorePages(currentPage < Math.ceil(count / PAGE_SIZE))`; this
value is passed to `PaginationControls` as `canGoNext`. -/
def hasMorePagesAfterLoad (currentPage count : Nat) : Bool :=
  decide (currentPage < totalPagesAfterLoad count)

/-- Outcome of a JavaScript async computation: it resolves or throws. -/
inductive JSOutcome (α : Type) where
  | ok (a : α)
  | thrown (msg : String)
deriving DecidableEq, Repr

/-- The parsed JSON body of an exchange-rate provider response,
restricted to the fields `getCurrencyRate` reads. -/
structure RateBody where
  result : String
  errorType : Option String
  conversionRates : List (String × Rat)
deriving DecidableEq, Repr

/-- The network-level outcome of the provider call: the fetch rejects,
or responds with an `ok` flag, a status, and a JSON body (`none` when
the body does not parse). -/
inductive FetchOutcome where
  | netError
  | response (ok : Bool) (status : Nat) (body : Option RateBody)
deriving DecidableEq, Repr

/-- Environment of `getCurrencyRate`: the configured API key (if any)
and what the single provider request would yield. -/
structure RateEnv where
  apiKey : Option String
  outcome : FetchOutcome
deriving DecidableEq, Repr

/-- The guard `if (!API_KEY)`: the key is missing when unset or empty. -/
def apiKeyMissing (env : RateEnv) : Bool :=
  match env.apiKey with
  | none => true
  | some k => k = ""

/-- `parseFloat(x.toFixed(6))`, on the exact-rational model of JavaScript
numbers: round to six decimal places, half away from zero for positive
arguments (ECMAScript picks the larger candidate on ties). -/
def toFixed6Rat (q : Rat) : Rat :=
  ((q * 1000000 + 1 / 2).floor : Rat) / 1000000

/-- `rates[currencyCode.toUpperCase()]` on the conversion-rates object. -/
def lookupRate (rates : List (String × Rat)) (code : String) : Option Rat :=
  match rates.find? (fun p => p.1 == code) with
  | some p => some p.2
  | none => none

/-- The `try` block of `getCurrencyRate`
(`src/services/currency-rate.ts`, lines 222-259): a rejected fetch or
unparseable body throws; a non-ok response throws with the provider's
`error-type` detail; a non-`success` result throws; a missing rate
returns `null`; otherwise the rate is inverted and rounded. -/
def rateTryBody (env : RateEnv) (code : String) : JSOutcome (Option Rat) :=
  match env.outcome with
  | .netError => .thrown "fetch failed"
  | .response okFlag status body =>
    if okFlag then
      match body with
      | none => .thrown "invalid json"
      | some b =>
        if b.result ≠ "success" then
          .thrown ("ExchangeRate API Error: " ++ jsOrS (b.errorType.getD "") "Unknown error")
        else
          match lookupRate b.conversionRates (jsToUpper code) with
          | none => .ok none
          | some r => .ok (some (toFixed6Rat (1 / r)))
    else
      let errDetail := match body with
        | some b => b.errorType.getD ""
        | none => ""
      .thrown ("Failed to fetch currency rates. Status: " ++ toString status ++ ". " ++ errDetail)

/-- Embedding of `getCurrencyRate` (`src/services/currency-rate.ts`,
lines 201-268).  The returned pair is the resolved value and whether the
provider request was issued; the invalid-code and missing-key guards
return `null` before any request, and the surrounding `catch` maps every
thrown failure to `null`. -/
def getCurrencyRateRun (env : RateEnv) (code : String) : JSOutcome (Option Rat × Bool) :=
  if code = "" ∨ code.length ≠ 3 then .ok (none, false)
  else if apiKeyMissing env then .ok (none, false)
  else
    match rateTryBody env code with
    | .ok v => .ok (v, true)
    | .thrown _ => .ok (none, true)

/-- Expected value written to a single calculation's target field,
transcribed from the amended form of the calculation claim: on a present
trigger, a non-nullish result is transformed by the field's input
transform, while a nullish or thrown result falls back to the configured
default (`?? null`, untransformed); on an absent trigger the default is
written. -/
def calcExpectedValue (fields : List FieldConfig) (c : FieldCalculation)
    (input : JSValue) : JSValue :=
  if presentB input then
    match c.calculator input with
    | .ok v =>
      if nullishB v then coalesceNull (defaultOf fields c.targetField)
      else applyTransform (getFieldConfig fields c.targetField) v
    | .thrown => coalesceNull (defaultOf fields c.targetField)
  else coalesceNull (defaultOf fields c.targetField)

/-- Expected final calculation status, transcribed from the amended
calculation claim: `success` on a non-nullish result, `error` on a
nullish or thrown result, `idle` when the trigger is absent. -/
def calcExpectedStatus (c : FieldCalculation) (input : JSValue) : CalcStatus :=
  if presentB input then
    match c.calculator input with
    | .ok v => if nullishB v then .error else .success
    | .thrown => .error
  else .idle

/-- Expected notifications, transcribed from the amended calculation
claim: exactly one toast, carrying the configurable message, and only
when the calculator throws. -/
def calcExpectedToasts (fields : List FieldConfig) (c : FieldCalculation)
    (input : JSValue) : List String :=
  if presentB input then
    match c.calculator input with
    | .ok _ => []
    | .thrown => [calcToastMsg fields c]
  else []

/-- Expected status-assignment trace: `pending` then the final status
when the trigger is present, a single `idle` assignment otherwise. -/
def calcExpectedTrace (c : FieldCalculation) (input : JSValue) :
    List (String × CalcStatus) :=
  if presentB input then
    [(c.targetField, .pending), (c.targetField, calcExpectedStatus c input)]
  else [(c.targetField, .idle)]

/-- Expected calculator invocations: exactly one call, with the trigger
value, when the trigger is present; none otherwise. -/
def calcExpectedCalls (input : JSValue) : List JSValue :=
  if presentB input then [input] else []

/-- The error message as the API-client claim describes it: the body's
`message` field when present (non-empty), otherwise the `issues` array
joined with a comma and space when that yields something, otherwise the
status fallback. -/
def claimedErrMsg (b : ParsedBody) (status : Nat) : String :=
  if b.message.getD "" ≠ "" then b.message.getD ""
  else if String.intercalate ", " (b.issues.getD []) ≠ "" then
    String.intercalate ", " (b.issues.getD [])
  else statusFallback status

/-- Field configurations of a small currency-like form, used to evaluate
the fan-out behaviour on concrete inputs. -/
def fieldsW1 : List FieldConfig :=
  [⟨"name", "Currency Name", .str "", none⟩,
   ⟨"symbol", "Symbol", .str "", none⟩,
   ⟨"code", "Currency Code", .str "", none⟩]

/-- A lookup row for the US dollar. -/
def rowW1 : Row := [("code", .str "USD"), ("name", .str "US Dollar"), ("symbol", .str "$")]

/-- A connection fanning the code out into name and symbol. -/
def connW1 : FieldConnection := ⟨"code", ["name", "symbol"], [rowW1], some true, []⟩

/-- A form state in which the user just selected the code `USD`. -/
def stW1 : FormSt := [("code", .str "USD"), ("name", .str ""), ("symbol", .str "")]

/-- A calculation whose calculator resolves to `null`. -/
def calcW2 : FieldCalculation := ⟨"rateToEuro", fun _ => .ok .null, "code", none⟩

/-- Field configurations for the no-match clearing example. -/
def fieldsW2 : List FieldConfig :=
  [⟨"name", "Currency Name", .str "", none⟩,
   ⟨"rateToEuro", "Rate to Euro", .num 0, none⟩]

/-- A connection with an omitted `clearTargetsOnNoMatch` flag and one
calculation, used to evaluate the no-match clearing on concrete inputs. -/
def connW2 : FieldConnection :=
  ⟨"code", ["name"], [[("code", .str "USD"), ("name", .str "US Dollar")]], none, [calcW2]⟩

/-- A form state holding stale values and an unknown code. -/
def stW2 : FormSt := [("code", .str "XXX"), ("name", .str "Stale"), ("rateToEuro", .num 7)]

/-- A stale calculation state left over from an earlier success. -/
def csW2 : CalcSt := [("rateToEuro", .success)]

/-- A calculation whose calculator resolves to `null`, with a configured
error message, for the notification counterexample. -/
def calcC4 : FieldCalculation :=
  ⟨"rateToEuro", fun _ => .ok .null, "code",
    some "Failed to automatically fetch currency rate."⟩

/-- The rate field's configuration (default `0`). -/
def fieldsC4 : List FieldConfig := [⟨"rateToEuro", "Rate to Euro", .num 0, none⟩]

/-- A matched lookup row carrying the trigger value. -/
def rowC4 : Row := [("code", .str "USD")]

/-- A form state holding a stale rate before the calculation runs. -/
def stC4 : FormSt := [("rateToEuro", .num 7)]

/-- A calculation that successfully computes the rate `2`. -/
def calcC5 : FieldCalculation := ⟨"rateToEuro", fun _ => .ok (.num 2), "code", none⟩

/-- Field configurations for the validation-flag counterexample. -/
def fieldsC5 : List FieldConfig :=
  [⟨"name", "Currency Name", .str "", none⟩,
   ⟨"rateToEuro", "Rate to Euro", .num 0, none⟩]

/-- A lookup row matched by the code `USD`. -/
def rowC5 : Row := [("code", .str "USD"), ("name", .str "US Dollar")]

/-- A connection with one fan-out target and one calculation. -/
def connC5 : FieldConnection := ⟨"code", ["name"], [rowC5], some true, [calcC5]⟩

/-- A form state in which the user just selected the code `USD`. -/
def stC5 : FormSt := [("code", .str "USD"), ("name", .str ""), ("rateToEuro", .num 0)]

/-- Lookup rows with duplicated currency symbols: the euro row, then two
rows sharing the symbol `$`. -/
def rowEur : Row := [("symbol", .str "€"), ("code", .str "EUR")]

/-- The US dollar row, the earliest row with symbol `$`. -/
def rowUsd : Row := [("symbol", .str "$"), ("code", .str "USD")]

/-- The Canadian dollar row, a later row with the same symbol `$`. -/
def rowCad : Row := [("symbol", .str "$"), ("code", .str "CAD")]

/-- A provider body offering the rate `2` for `USD`. -/
def rateBodyW : RateBody := ⟨"success", none, [("USD", 2)]⟩

/-- A provider environment with a configured key and a successful
response. -/
def rateEnvW : RateEnv := ⟨some "key", .response true 200 (some rateBodyW)⟩

/-- An environment with a configured key whose fetch rejects. -/
def rateEnvKey : RateEnv := ⟨some "key", .netError⟩

/-- An environment with no configured API key. -/
def rateEnvNoKey : RateEnv := ⟨none, .response true 200 none⟩

/-! Helper lemmas about the object model. -/

theorem getVal_setVal_self (st : List (String × JSValue)) (k : String) (v : JSValue) :
    getVal (setVal st k v) k = v := by
  induction st with
  | nil => simp [getVal, setVal]
  | cons p rest ih =>
    by_cases h : p.1 = k
    · simp [setVal, h, getVal]
    · simp [setVal, h, getVal, ih]

theorem getVal_setVal_other (st : List (String × JSValue)) (k k2 : String) (v : JSValue)
    (h : k2 ≠ k) : getVal (setVal st k v) k2 = getVal st k2 := by
  have h2 : k ≠ k2 := Ne.symm h
  induction st with
  | nil => simp [getVal, setVal, h2]
  | cons p rest ih =>
    by_cases hp : p.1 = k
    · simp [setVal, hp, getVal, h2]
    · simp [setVal, hp, getVal, ih]

theorem statusVal_setStatus_self (cs : List (String × CalcStatus)) (t : String) (s : CalcStatus) :
    statusVal (setStatus cs t s) t = s := by
  induction cs with
  | nil => simp [statusVal, setStatus]
  | cons p rest ih =>
    by_cases h : p.1 = t
    · simp [setStatus, h, statusVal]
    · simp [setStatus, h, statusVal, ih]

theorem statusVal_setStatus_other (cs : List (String × CalcStatus)) (t t2 : String)
    (s : CalcStatus) (h : t2 ≠ t) : statusVal (setStatus cs t s) t2 = statusVal cs t2 := by
  have h2 : t ≠ t2 := Ne.symm h
  induction cs with
  | nil => simp [statusVal, setStatus, h2]
  | cons p rest ih =>
    by_cases hp : p.1 = t
    · simp [setStatus, hp, statusVal, h2]
    · simp [setStatus, hp, statusVal, ih]

theorem fanOut_notMem (src : String) (fields : List FieldConfig) (row : Row)
    (ts : List String) (st : FormSt) (t : String) (h : t ∉ ts) :
    getVal (fanOut src fields row ts st).1 t = getVal st t ∧
      ∀ w ∈ (fanOut src fields row ts st).2, w.field ≠ t := by
  induction ts generalizing st with
  | nil => simp [fanOut]
  | cons u ts ih =>
    have hu : u ≠ t := fun hh => h (hh ▸ List.mem_cons_self u ts)
    have hts : t ∉ ts := fun hmem => h (List.mem_cons_of_mem u hmem)
    by_cases hs : u = src
    · simpa [fanOut, hs] using ih st hts
    · by_cases heq : getVal st u = fanOutValue fields row u
      · simpa [fanOut, hs, heq] using ih st hts
      · have hrec := ih (setVal st u (fanOutValue fields row u)) hts
        have hget : getVal (setVal st u (fanOutValue fields row u)) t = getVal st t :=
          getVal_setVal_other st u t (fanOutValue fields row u) (Ne.symm hu)
        simp only [fanOut, if_neg hs, if_neg heq]
        refine ⟨by rw [hrec.1, hget], ?_⟩
        intro w hw
        rcases List.mem_cons.mp hw with rfl | hw2
        · exact hu
        · exact hrec.2 w hw2

theorem fanOut_mem (src : String) (fields : List FieldConfig) (row : Row)
    (ts : List String) (st : FormSt) (t : String)
    (hnd : ts.Nodup) (ht : t ∈ ts) (hts : t ≠ src) :
    getVal (fanOut src fields row ts st).1 t = fanOutValue fields row t ∧
      ((∃ w ∈ (fanOut src fields row ts st).2, w.field = t) ↔
        getVal st t ≠ fanOutValue fields row t) := by
  revert hnd ht
  induction ts generalizing st with
  | nil => intro _ ht; cases ht
  | cons u ts ih =>
    intro hnd ht
    have hnd2 : ts.Nodup := (List.nodup_cons.mp hnd).2
    rcases List.mem_cons.mp ht with rfl | hmem
    · have hnotin : t ∉ ts := (List.nodup_cons.mp hnd).1
      by_cases heq : getVal st t = fanOutValue fields row t
      · have hrec := fanOut_notMem src fields row ts st t hnotin
        simp only [fanOut, if_neg hts, if_pos heq]
        refine ⟨by rw [hrec.1, heq], ?_⟩
        constructor
        · rintro ⟨w, hw, hwf⟩
          exact absurd hwf (hrec.2 w hw)
        · intro hne
          exact absurd heq hne
      · have hrec := fanOut_notMem src fields row ts
          (setVal st t (fanOutValue fields row t)) t hnotin
        simp only [fanOut, if_neg hts, if_neg heq]
        refine ⟨by rw [hrec.1, getVal_setVal_self], ?_⟩
        constructor
        · intro _
          exact heq
        · intro _
          exact ⟨⟨t, fanOutValue fields row t, false⟩, List.mem_cons_self _ _, rfl⟩
    · have hu : u ≠ t := fun hh => (List.nodup_cons.mp hnd).1 (hh ▸ hmem)
      by_cases hs : u = src
      · simpa [fanOut, hs] using ih st hnd2 hmem
      · by_cases hequ : getVal st u = fanOutValue fields row u
        · simpa [fanOut, hs, hequ] using ih st hnd2 hmem
        · have hrec := ih (setVal st u (fanOutValue fields row u)) hnd2 hmem
          have hget : getVal (setVal st u (fanOutValue fields row u)) t = getVal st t :=
            getVal_setVal_other st u t (fanOutValue fields row u) (Ne.symm hu)
          simp only [fanOut, if_neg hs, if_neg hequ]
          refine ⟨hrec.1, ?_⟩
          rw [← hget]
          constructor
          · rintro ⟨w, hw, hwf⟩
            rcases List.mem_cons.mp hw with rfl | hw2
            · exact absurd hwf hu
            · exact hrec.2.mp ⟨w, hw2, hwf⟩
          · intro hne
            rcases hrec.2.mpr hne with ⟨w, hw2, hwf⟩
            exact ⟨w, List.mem_cons_of_mem _ hw2, hwf⟩

theorem runCalculations_other (fields : List FieldConfig) (row : Row)
    (calcs : List FieldCalculation) (st : FormSt) (cs : CalcSt) (t : String)
    (h : ∀ c ∈ calcs, c.targetField ≠ t) :
    getVal (runCalculations fields row calcs st cs).state t = getVal st t ∧
      ∀ w ∈ (runCalculations fields row calcs st cs).writes, w.field ≠ t := by
  revert h
  induction calcs generalizing st cs with
  | nil =>
    intro _
    simp [runCalculations]
  | cons c rest ih =>
    intro h
    have hc : c.targetField ≠ t := h c (List.mem_cons_self c rest)
    have hrest : ∀ d ∈ rest, d.targetField ≠ t :=
      fun d hd => h d (List.mem_cons_of_mem c hd)
    by_cases hp : presentB (getVal row c.calculationTriggerField) = true
    · cases hcal : c.calculator (getVal row c.calculationTriggerField) with
      | ok v =>
        by_cases hn : nullishB v = true
        · have hrec := ih (setVal st c.targetField (coalesceNull (defaultOf fields c.targetField)))
            (setStatus (setStatus cs c.targetField .pending) c.targetField .error) hrest
          have hget := getVal_setVal_other st c.targetField t
            (coalesceNull (defaultOf fields c.targetField)) (Ne.symm hc)
          simp only [runCalculations, hp, if_pos, hcal, hn, if_true]
          refine ⟨by rw [hrec.1, hget], ?_⟩
          intro w hw
          rcases List.mem_cons.mp hw with rfl | hw2
          · exact hc
          · exact hrec.2 w hw2
        · have hrec := ih
            (setVal st c.targetField (applyTransform (getFieldConfig fields c.targetField) v))
            (setStatus (setStatus cs c.targetField .pending) c.targetField .success) hrest
          have hget := getVal_setVal_other st c.targetField t
            (applyTransform (getFieldConfig fields c.targetField) v) (Ne.symm hc)
          simp only [runCalculations, hp, hcal, hn, if_true, if_false, Bool.false_eq_true]
          refine ⟨by rw [hrec.1, hget], ?_⟩
          intro w hw
          rcases List.mem_cons.mp hw with rfl | hw2
          · exact hc
          · exact hrec.2 w hw2
      | thrown =>
        have hrec := ih (setVal st c.targetField (coalesceNull (defaultOf fields c.targetField)))
          (setStatus (setStatus cs c.targetField .pending) c.targetField .error) hrest
        have hget := getVal_setVal_other st c.targetField t
          (coalesceNull (defaultOf fields c.targetField)) (Ne.symm hc)
        simp only [runCalculations, hp, hcal, if_true]
        refine ⟨by rw [hrec.1, hget], ?_⟩
        intro w hw
        rcases List.mem_cons.mp hw with rfl | hw2
        · exact hc
        · exact hrec.2 w hw2
    · have hrec := ih (setVal st c.targetField (coalesceNull (defaultOf fields c.targetField)))
        (setStatus cs c.targetField .idle) hrest
      have hget := getVal_setVal_other st c.targetField t
        (coalesceNull (defaultOf fields c.targetField)) (Ne.symm hc)
      simp only [runCalculations, hp, if_false, Bool.false_eq_true]
      refine ⟨by rw [hrec.1, hget], ?_⟩
      intro w hw
      rcases List.mem_cons.mp hw with rfl | hw2
      · exact hc
      · exact hrec.2 w hw2

theorem clearTargets_preserve (src : String) (fields : List FieldConfig)
    (calcs : List FieldCalculation) (ts : List String) (st : FormSt) (cs : CalcSt)
    (t : String) (hv : getVal st t = clearedValue fields t) :
    getVal (clearTargets src fields calcs ts st cs).1 t = clearedValue fields t ∧
      (statusVal cs t = .idle →
        statusVal (clearTargets src fields calcs ts st cs).2.1 t = .idle) := by
  revert hv
  induction ts generalizing st cs with
  | nil =>
    intro hv
    simpa [clearTargets] using hv
  | cons u ts ih =>
    intro hv
    by_cases hs : u = src
    · simpa [clearTargets, hs] using ih st cs hv
    · by_cases hut : u = t
      · subst hut
        by_cases hcalc : calcs.any (fun c => c.targetField == u) = true
        · have hrec := ih st (setStatus cs u .idle) hv
          simp only [clearTargets, if_neg hs, if_pos hv, hcalc, if_true]
          exact ⟨hrec.1, fun _ => hrec.2 (statusVal_setStatus_self cs u .idle)⟩
        · have hrec := ih st cs hv
          simp only [clearTargets, if_neg hs, if_pos hv, hcalc, Bool.false_eq_true, if_false]
          exact hrec
      · by_cases hcur : getVal st u = clearedValue fields u
        · by_cases hcalc : calcs.any (fun c => c.targetField == u) = true
          · have hrec := ih st (setStatus cs u .idle) hv
            simp only [clearTargets, if_neg hs, if_pos hcur, hcalc, if_true]
            refine ⟨hrec.1, fun hidle => hrec.2 ?_⟩
            rw [statusVal_setStatus_other cs u t .idle (Ne.symm hut)]
            exact hidle
          · have hrec := ih st cs hv
            simp only [clearTargets, if_neg hs, if_pos hcur, hcalc, Bool.false_eq_true, if_false]
            exact hrec
        · have hv2 : getVal (setVal st u (clearedValue fields u)) t = clearedValue fields t := by
            rw [getVal_setVal_other st u t (clearedValue fields u) (Ne.symm hut)]
            exact hv
          by_cases hcalc : calcs.any (fun c => c.targetField == u) = true
          · have hrec := ih (setVal st u (clearedValue fields u)) (setStatus cs u .idle) hv2
            simp only [clearTargets, if_neg hs, if_neg hcur, hcalc, if_true]
            refine ⟨hrec.1, fun hidle => hrec.2 ?_⟩
            rw [statusVal_setStatus_other cs u t .idle (Ne.symm hut)]
            exact hidle
          · have hrec := ih (setVal st u (clearedValue fields u)) cs hv2
            simp only [clearTargets, if_neg hs, if_neg hcur, hcalc, Bool.false_eq_true, if_false]
            exact hrec

theorem clearTargets_mem (src : String) (fields : List FieldConfig)
    (calcs : List FieldCalculation) (ts : List String) (st : FormSt) (cs : CalcSt)
    (t : String) (ht : t ∈ ts) (hts : t ≠ src) :
    getVal (clearTargets src fields calcs ts st cs).1 t = clearedValue fields t ∧
      (calcs.any (fun c => c.targetField == t) = true →
        statusVal (clearTargets src fields calcs ts st cs).2.1 t = .idle) := by
  revert ht
  induction ts generalizing st cs with
  | nil =>
    intro ht
    cases ht
  | cons u ts ih =>
    intro ht
    rcases List.mem_cons.mp ht with rfl | hmem
    · by_cases hcur : getVal st t = clearedValue fields t
      · by_cases hcalc : calcs.any (fun c => c.targetField == t) = true
        · have hrec := clearTargets_preserve src fields calcs ts st (setStatus cs t .idle) t hcur
          simp only [clearTargets, if_neg hts, if_pos hcur, hcalc, if_true]
          exact ⟨hrec.1, fun _ => hrec.2 (statusVal_setStatus_self cs t .idle)⟩
        · have hrec := clearTargets_preserve src fields calcs ts st cs t hcur
          simp only [clearTargets, if_neg hts, if_pos hcur, hcalc, Bool.false_eq_true, if_false]
          exact ⟨hrec.1, fun hc => hc.elim⟩
      · have hv2 : getVal (setVal st t (clearedValue fields t)) t = clearedValue fields t :=
          getVal_setVal_self st t (clearedValue fields t)
        by_cases hcalc : calcs.any (fun c => c.targetField == t) = true
        · have hrec := clearTargets_preserve src fields calcs ts
            (setVal st t (clearedValue fields t)) (setStatus cs t .idle) t hv2
          simp only [clearTargets, if_neg hts, if_neg hcur, hcalc, if_true]
          exact ⟨hrec.1, fun _ => hrec.2 (statusVal_setStatus_self cs t .idle)⟩
        · have hrec := clearTargets_preserve src fields calcs ts
            (setVal st t (clearedValue fields t)) cs t hv2
          simp only [clearTargets, if_neg hts, if_neg hcur, hcalc, Bool.false_eq_true, if_false]
          exact ⟨hrec.1, fun hc => hc.elim⟩
    · by_cases hs : u = src
      · simpa [clearTargets, hs] using ih st cs hmem
      · by_cases hcur : getVal st u = clearedValue fields u
        · by_cases hcalc : calcs.any (fun c => c.targetField == u) = true
          · simpa [clearTargets, hs, hcur, hcalc] using ih st (setStatus cs u .idle) hmem
          · simpa [clearTargets, hs, hcur, hcalc] using ih st cs hmem
        · by_cases hcalc : calcs.any (fun c => c.targetField == u) = true
          · simpa [clearTargets, hs, hcur, hcalc] using
              ih (setVal st u (clearedValue fields u)) (setStatus cs u .idle) hmem
          · simpa [clearTargets, hs, hcur, hcalc] using
              ih (setVal st u (clearedValue fields u)) cs hmem

theorem findMatch_first_aux (src : String) (v : JSValue) (post : List Row) (r : Row)
    (hr : connectionEq v (getVal r src) = true) :
    ∀ pre : List Row, (∀ q ∈ pre, connectionEq v (getVal q src) = false) →
      findMatch src (pre ++ r :: post) v = some r := by
  intro pre
  induction pre with
  | nil =>
    intro _
    simp [findMatch, List.find?_cons_of_pos, hr]
  | cons q pre ih =>
    intro hpre
    have hq := hpre q (List.mem_cons_self q pre)
    have hrec := ih (fun x hx => hpre x (List.mem_cons_of_mem q hx))
    simpa [findMatch, List.find?_cons_of_neg, hq] using hrec

theorem guardInv_aux (es : List GuardEvent) :
    ∀ s : GuardState, s.running ≤ 1 → (s.processing = false → s.running = 0) →
      (es.foldl guardStep s).running ≤ 1 ∧
        ((es.foldl guardStep s).processing = false → (es.foldl guardStep s).running = 0) := by
  induction es with
  | nil =>
    intro s h1 h2
    exact ⟨h1, h2⟩
  | cons e es ih =>
    intro s h1 h2
    cases e with
    | change =>
      by_cases hp : s.processing = true
      · have hstep : guardStep s .change = s := by simp [guardStep, hp]
        rw [List.foldl_cons, hstep]
        exact ih s h1 h2
      · have hz : s.running = 0 := h2 (by revert hp; cases s.processing <;> simp)
        have hstep : guardStep s .change = ⟨true, s.running + 1⟩ := by
          simp [guardStep, hp]
        rw [List.foldl_cons, hstep]
        refine ih ⟨true, s.running + 1⟩ ?_ ?_
        · show s.running + 1 ≤ 1
          omega
        · intro hh
          simp at hh
    | complete ok =>
      have hstep : guardStep s (.complete ok) = ⟨false, s.running - 1⟩ := rfl
      rw [List.foldl_cons, hstep]
      refine ih ⟨false, s.running - 1⟩ ?_ ?_
      · show s.running - 1 ≤ 1
        omega
      · intro _
        show s.running - 1 = 0
        omega

/-- Claim C1: when the changed source value matches a row of the
connection's lookup table, every listed target field other than the
source field ends up holding the matched row's value for that field —
falling back to the field's configured default when the row omits it,
and to a zero value keyed on the default's primitive type as last
resort — with the field's configured input transform applied
(`fanOutValue`); and a `setValue` call for that field is recorded
exactly when this resulting value differs from the field's current
value.  Stated for duplicate-free target lists and for target fields
that are not also calculation targets (calculations overwrite those
afterwards). -/
theorem processConnection_match_fanout (conn : FieldConnection)
    (fields : List FieldConfig) (st : FormSt) (cs : CalcSt) (row : Row) (t : String)
    (hm : findMatch conn.sourceField conn.lookupSet (getVal st conn.sourceField) = some row)
    (hnd : conn.targetFields.Nodup)
    (ht : t ∈ conn.targetFields) (hts : t ≠ conn.sourceField)
    (hc : ∀ c ∈ conn.calculations, c.targetField ≠ t) :
    getVal (processConnection conn fields st cs).state t = fanOutValue fields row t ∧
      ((∃ w ∈ (processConnection conn fields st cs).writes, w.field = t) ↔
        getVal st t ≠ fanOutValue fields row t) := by
  have hf := fanOut_mem conn.sourceField fields row conn.targetFields st t hnd ht hts
  unfold processConnection
  rw [hm]
  unfold processWithMatch
  by_cases hl : conn.calculations.length > 0
  · have hr := runCalculations_other fields row conn.calculations
      (fanOut conn.sourceField fields row conn.targetFields st).1 cs t hc
    simp only [if_pos hl]
    constructor
    · rw [hr.1]
      exact hf.1
    · constructor
      · rintro ⟨w, hw, hwf⟩
        rcases List.mem_append.mp hw with hw1 | hw2
        · exact hf.2.mp ⟨w, hw1, hwf⟩
        · exact absurd hwf (hr.2 w hw2)
      · intro hne
        obtain ⟨w, hw, hwf⟩ := hf.2.mpr hne
        exact ⟨w, List.mem_append_left _ hw, hwf⟩
  · simp only [if_neg hl]
    exact hf

/-- Claim C2: when the changed source value matches no row and
`clearTargetsOnNoMatch` is not explicitly `false` (in particular when it
is omitted), every target field and every calculation target field other
than the source field is reset to its configured default (`?? null`)
with the field's input transform applied, and the calculation status of
every calculated field among them is reset to `idle`. -/
theorem processConnection_noMatch_clears (conn : FieldConnection)
    (fields : List FieldConfig) (st : FormSt) (cs : CalcSt) (t : String)
    (hm : findMatch conn.sourceField conn.lookupSet (getVal st conn.sourceField) = none)
    (hflag : conn.clearTargetsOnNoMatch ≠ some false)
    (ht : t ∈ allTargets conn) (hts : t ≠ conn.sourceField) :
    getVal (processConnection conn fields st cs).state t = clearedValue fields t ∧
      (conn.calculations.any (fun c => c.targetField == t) = true →
        statusVal (processConnection conn fields st cs).calcState t = .idle) := by
  unfold processConnection
  rw [hm]
  unfold processWithMatch
  simp only [if_neg hflag]
  exact clearTargets_mem conn.sourceField fields conn.calculations (allTargets conn) st cs t ht hts

/-- Claim C9: the lookup takes the first row in array order whose
source-field value matches (its `Array.prototype.find` semantics), so
when several rows share the source value, the earliest of them alone
determines the whole propagation result. -/
theorem lookup_first_match_wins (src : String) (v : JSValue) (pre post : List Row) (r : Row)
    (hpre : ∀ q ∈ pre, connectionEq v (getVal q src) = false)
    (hr : connectionEq v (getVal r src) = true) :
    findMatch src (pre ++ r :: post) v = some r ∧
      ∀ (conn : FieldConnection) (fields : List FieldConfig) (st : FormSt) (cs : CalcSt),
        conn.sourceField = src → conn.lookupSet = pre ++ r :: post →
        getVal st src = v →
        processConnection conn fields st cs = processWithMatch conn fields st cs (some r) := by
  have hfind := findMatch_first_aux src v post r hr pre hpre
  refine ⟨hfind, ?_⟩
  intro conn fields st cs h1 h2 h3
  unfold processConnection
  rw [h1, h2, h3, hfind]

/-- Claim C3: at most one propagation cycle runs at a time per form
instance — along any event sequence the number of in-flight cycles never
exceeds one; a change event arriving while the guard flag is set leaves
the guard state unchanged (ignored, not queued); and a completing cycle
clears the flag whatever its outcome. -/
theorem guard_at_most_one_cycle :
    (∀ es : List GuardEvent, (runGuard es).running ≤ 1) ∧
      (∀ s : GuardState, s.processing = true → guardStep s .change = s) ∧
      (∀ (s : GuardState) (ok : Bool), (guardStep s (.complete ok)).processing = false) := by
  refine ⟨?_, ?_, ?_⟩
  · intro es
    exact (guardInv_aux es ⟨false, 0⟩ (by simp) (by simp)).1
  · intro s hp
    simp [guardStep, hp]
  · intro s ok
    simp [guardStep]

/-- Claim C4 counterexample: a calculation whose calculator resolves to
`null` on a present trigger drives the target to its configured default
with status `error`, yet raises no notification — the toast list is
empty, contradicting the claim that a null result raises a user-facing
notification. -/
theorem runCalculations_null_result_no_toast :
    (runCalculations fieldsC4 rowC4 [calcC4] stC4 []).toasts = [] ∧
      statusVal (runCalculations fieldsC4 rowC4 [calcC4] stC4 []).calcState "rateToEuro" =
        .error ∧
      getVal (runCalculations fieldsC4 rowC4 [calcC4] stC4 []).state "rateToEuro" =
        .num 0 := by
  decide

/-- Claim C4 (amended): for a single calculation run after a lookup
match, a present trigger value marks the status `pending` and invokes
the calculator exactly once; a non-null result is transformed and marked
`success`; a thrown result writes the configured default, is marked
`error` and raises one notification with the configurable message; a
null/undefined result likewise writes the default (never a stale value)
and is marked `error`, but raises no notification; an absent trigger
skips the calculator and resets the field to its default with status
`idle`. -/
theorem runCalculations_single_spec (fields : List FieldConfig) (c : FieldCalculation)
    (row : Row) (st : FormSt) (cs : CalcSt) :
    (runCalculations fields row [c] st cs).state =
        setVal st c.targetField
          (calcExpectedValue fields c (getVal row c.calculationTriggerField)) ∧
      statusVal (runCalculations fields row [c] st cs).calcState c.targetField =
        calcExpectedStatus c (getVal row c.calculationTriggerField) ∧
      (runCalculations fields row [c] st cs).toasts =
        calcExpectedToasts fields c (getVal row c.calculationTriggerField) ∧
      (runCalculations fields row [c] st cs).trace =
        calcExpectedTrace c (getVal row c.calculationTriggerField) ∧
      (runCalculations fields row [c] st cs).calls =
        calcExpectedCalls (getVal row c.calculationTriggerField) ∧
      (runCalculations fields row [c] st cs).writes =
        [⟨c.targetField,
          calcExpectedValue fields c (getVal row c.calculationTriggerField), true⟩] := by
  by_cases hp : presentB (getVal row c.calculationTriggerField) = true
  · cases hcal : c.calculator (getVal row c.calculationTriggerField) with
    | ok v =>
      by_cases hn : nullishB v = true
      · simp [runCalculations, calcExpectedValue, calcExpectedStatus, calcExpectedToasts,
          calcExpectedTrace, calcExpectedCalls, hp, hcal, hn, statusVal_setStatus_self]
      · simp [runCalculations, calcExpectedValue, calcExpectedStatus, calcExpectedToasts,
          calcExpectedTrace, calcExpectedCalls, hp, hcal, hn, statusVal_setStatus_self]
    | thrown =>
      simp [runCalculations, calcExpectedValue, calcExpectedStatus, calcExpectedToasts,
        calcExpectedTrace, calcExpectedCalls, hp, hcal, statusVal_setStatus_self]
  · simp [runCalculations, calcExpectedValue, calcExpectedStatus, calcExpectedToasts,
      calcExpectedTrace, calcExpectedCalls, hp, statusVal_setStatus_self]

theorem fanOut_writes_validate (src : String) (fields : List FieldConfig) (row : Row)
    (ts : List String) (st : FormSt) :
    ∀ w ∈ (fanOut src fields row ts st).2, w.validate = false := by
  induction ts generalizing st with
  | nil => simp [fanOut]
  | cons u ts ih =>
    by_cases hs : u = src
    · simpa [fanOut, hs] using ih st
    · by_cases heq : getVal st u = fanOutValue fields row u
      · simpa [fanOut, hs, heq] using ih st
      · intro w hw
        simp only [fanOut, if_neg hs, if_neg heq] at hw
        rcases List.mem_cons.mp hw with rfl | hw2
        · rfl
        · exact ih _ w hw2

theorem clearTargets_writes_validate (src : String) (fields : List FieldConfig)
    (calcs : List FieldCalculation) (ts : List String) (st : FormSt) (cs : CalcSt) :
    ∀ w ∈ (clearTargets src fields calcs ts st cs).2.2, w.validate = false := by
  induction ts generalizing st cs with
  | nil => simp [clearTargets]
  | cons u ts ih =>
    by_cases hs : u = src
    · simpa [clearTargets, hs] using ih st cs
    · intro w hw
      by_cases hcur : getVal st u = clearedValue fields u
      · simp only [clearTargets, if_neg hs, if_pos hcur, List.nil_append] at hw
        exact ih st _ w hw
      · simp only [clearTargets, if_neg hs, if_neg hcur, List.cons_append,
          List.nil_append] at hw
        rcases List.mem_cons.mp hw with rfl | hw2
        · rfl
        · exact ih _ _ w hw2

theorem runCalculations_writes_validate (fields : List FieldConfig) (row : Row)
    (calcs : List FieldCalculation) (st : FormSt) (cs : CalcSt) :
    ∀ w ∈ (runCalculations fields row calcs st cs).writes, w.validate = true := by
  induction calcs generalizing st cs with
  | nil => simp [runCalculations]
  | cons c rest ih =>
    intro w hw
    by_cases hp : presentB (getVal row c.calculationTriggerField) = true
    · cases hcal : c.calculator (getVal row c.calculationTriggerField) with
      | ok v =>
        by_cases hn : nullishB v = true
        · simp only [runCalculations, hp, hcal, hn, if_true] at hw
          rcases List.mem_cons.mp hw with rfl | hw2
          · rfl
          · exact ih _ _ w hw2
        · simp only [runCalculations, hp, hcal, hn, if_true, Bool.false_eq_true,
            if_false] at hw
          rcases List.mem_cons.mp hw with rfl | hw2
          · rfl
          · exact ih _ _ w hw2
      | thrown =>
        simp only [runCalculations, hp, hcal, if_true] at hw
        rcases List.mem_cons.mp hw with rfl | hw2
        · rfl
        · exact ih _ _ w hw2
    · simp only [runCalculations, hp, Bool.false_eq_true, if_false] at hw
      rcases List.mem_cons.mp hw with rfl | hw2
      · rfl
      · exact ih _ _ w hw2

/-- Claim C5 counterexample: during a propagation with a calculation,
the calculation-result write is issued with `shouldValidate: true` — the
recorded write for `rateToEuro` carries the validation flag, so not
every write of steps 3-5 defers validation. -/
theorem processConnection_calc_write_validates :
    (WriteOp.mk "rateToEuro" (.num 2) true) ∈
      (processConnection connC5 fieldsC5 stC5 []).writes := by
  decide

/-- Claim C5 (amended): the fan-out writes of the match branch and the
clearing writes of the no-match branch are issued with validation
deferred (`shouldValidate: false`), while every calculation-result write
of `runCalculations` is issued with `shouldValidate: true`. -/
theorem propagation_write_validation_policy (src : String) (fields : List FieldConfig)
    (row : Row) (ts : List String) (st : FormSt) (cs : CalcSt)
    (calcs : List FieldCalculation) :
    (fanOut src fields row ts st).2.all (fun w => w.validate == false) = true ∧
      (clearTargets src fields calcs ts st cs).2.2.all
        (fun w => w.validate == false) = true ∧
      (runCalculations fields row calcs st cs).writes.all
        (fun w => w.validate == true) = true := by
  refine ⟨?_, ?_, ?_⟩
  · exact List.all_eq_true.mpr fun w hw => by
      simp [fanOut_writes_validate src fields row ts st w hw]
  · exact List.all_eq_true.mpr fun w hw => by
      simp [clearTargets_writes_validate src fields calcs ts st cs w hw]
  · exact List.all_eq_true.mpr fun w hw => by
      simp [runCalculations_writes_validate fields row calcs st cs w hw]

theorem responseErrMsg_eq_claimed (b : ParsedBody) (status : Nat) :
    responseErrMsg b status = claimedErrMsg b status := by
  unfold responseErrMsg claimedErrMsg
  cases hb : b.issues with
  | none => simp [String.intercalate]
  | some is => simp

/-- Claim C6: a non-2xx response makes `handleResponse` throw an `Error`
whose message is the body's `message` field when present, otherwise the
`issues` array joined with a comma and space, otherwise the fallback
`HTTP error! status: <status>`; a body that fails to parse as JSON is
treated as the empty object, so the status fallback is used and the
function still throws an `Error` rather than crashing. -/
theorem handleResponse_error_message (r : HttpResponse) (h : r.ok = false) :
    handleResponse r = .error (claimedErrMsg (r.body.getD ⟨none, none⟩) r.status) ∧
      (r.body = none → handleResponse r = .error (statusFallback r.status)) := by
  constructor
  · unfold handleResponse
    rw [h]
    simp only [Bool.false_eq_true, if_false]
    rw [responseErrMsg_eq_claimed]
  · intro hb
    unfold handleResponse
    rw [h, hb]
    simp only [Option.getD_none, Bool.false_eq_true, if_false]
    unfold responseErrMsg
    simp

/-- Claim C7: with page size 10 and a server count of 25 the total page
count is `ceil(25 / 10) = 3`, and the next-page control is enabled
exactly when the current page is strictly below the total page count, so
it is disabled exactly on pages 3 and beyond. -/
theorem orders_pagination :
    totalPagesAfterLoad 25 = 3 ∧
      (∀ p c : Nat, hasMorePagesAfterLoad p c = decide (p < totalPagesAfterLoad c)) ∧
      ∀ p : Nat, (hasMorePagesAfterLoad p 25 = false ↔ 3 ≤ p) := by
  refine ⟨rfl, fun p c => rfl, ?_⟩
  intro p
  have h3 : totalPagesAfterLoad 25 = 3 := rfl
  simp [hasMorePagesAfterLoad, h3, decide_eq_false_iff_not, Nat.not_lt]

/-- Claim C8: when the provider responds successfully and lists a
(positive) rate for the requested code, `getCurrencyRate` returns the
inverse of the provider's rate — EUR per foreign unit instead of foreign
units per EUR — rounded to six decimal places. -/
theorem getCurrencyRate_inverts_rate (env : RateEnv) (code k : String) (status : Nat)
    (b : RateBody) (r : Rat)
    (hkey : env.apiKey = some k) (hk : k ≠ "")
    (hlen : code.length = 3)
    (hout : env.outcome = .response true status (some b))
    (hres : b.result = "success")
    (hrate : lookupRate b.conversionRates (jsToUpper code) = some r)
    (hpos : 0 < r) :
    getCurrencyRateRun env code = .ok (some (toFixed6Rat (1 / r)), true) := by
  have hne : ¬(code = "" ∨ code.length ≠ 3) := by
    rintro (rfl | hl)
    · simp at hlen
    · exact hl hlen
  have hmiss : apiKeyMissing env = false := by
    unfold apiKeyMissing
    rw [hkey]
    simp [hk]
  have hbody : rateTryBody env code = .ok (some (toFixed6Rat (1 / r))) := by
    unfold rateTryBody
    rw [hout]
    have hsucc : ¬(b.result ≠ "success") := by simp [hres]
    simp only [if_true, if_neg hsucc, hrate]
  unfold getCurrencyRateRun
  rw [if_neg hne, hmiss]
  simp only [Bool.false_eq_true, if_false]
  rw [hbody]

/-- Claim C10: `getCurrencyRate` returns `null` without issuing any
request when the code is empty or not exactly three characters long
(the empty string has length zero, so the length test subsumes it) or
when the API key is missing; for every input it resolves rather than
throwing; and an internal failure of the request body is caught and
mapped to a `null` return. -/
theorem getCurrencyRate_guards_total (env : RateEnv) (code : String) :
    (code.length ≠ 3 → getCurrencyRateRun env code = .ok (none, false)) ∧
      (apiKeyMissing env = true → getCurrencyRateRun env code = .ok (none, false)) ∧
      (∃ v, getCurrencyRateRun env code = .ok v) ∧
      (∀ m : String, rateTryBody env code = .thrown m → code.length = 3 →
        apiKeyMissing env = false → getCurrencyRateRun env code = .ok (none, true)) := by
  refine ⟨?_, ?_, ?_, ?_⟩
  · intro hl
    unfold getCurrencyRateRun
    rw [if_pos (Or.inr hl)]
  · intro hm
    unfold getCurrencyRateRun
    by_cases hg : code = "" ∨ code.length ≠ 3
    · rw [if_pos hg]
    · rw [if_neg hg, if_pos hm]
  · unfold getCurrencyRateRun
    by_cases hg : code = "" ∨ code.length ≠ 3
    · exact ⟨(none, false), by rw [if_pos hg]⟩
    · by_cases hm : apiKeyMissing env = true
      · exact ⟨(none, false), by rw [if_neg hg, if_pos hm]⟩
      · cases ht : rateTryBody env code with
        | ok v =>
          refine ⟨(v, true), ?_⟩
          rw [if_neg hg]
          simp only [hm, Bool.false_eq_true, if_false, ht]
        | thrown m =>
          refine ⟨(none, true), ?_⟩
          rw [if_neg hg]
          simp only [hm, Bool.false_eq_true, if_false, ht]
  · intro m hthr hlen hmiss
    have hg : ¬(code = "" ∨ code.length ≠ 3) := by
      rintro (rfl | hl)
      · simp at hlen
      · exact hl hlen
    unfold getCurrencyRateRun
    rw [if_neg hg, hmiss]
    simp only [Bool.false_eq_true, if_false]
    rw [hthr]

/-- Witness for the fan-out claim: selecting the code `USD` fills the
name field from the matched row. -/
theorem processConnection_match_fanout_witness :
    getVal (processConnection connW1 fieldsW1 stW1 []).state "name" =
        fanOutValue fieldsW1 rowW1 "name" ∧
      ((∃ w ∈ (processConnection connW1 fieldsW1 stW1 []).writes, w.field = "name") ↔
        getVal stW1 "name" ≠ fanOutValue fieldsW1 rowW1 "name") :=
  processConnection_match_fanout connW1 fieldsW1 stW1 [] rowW1 "name"
    (by decide) (by decide) (by decide) (by decide) (by simp [connW1])

/-- Witness for the no-match clearing claim: an unknown code resets the
calculated rate field and its status, with the clearing flag omitted. -/
theorem processConnection_noMatch_clears_witness :
    getVal (processConnection connW2 fieldsW2 stW2 csW2).state "rateToEuro" =
        clearedValue fieldsW2 "rateToEuro" ∧
      (connW2.calculations.any (fun c => c.targetField == "rateToEuro") = true →
        statusVal (processConnection connW2 fieldsW2 stW2 csW2).calcState "rateToEuro" =
          .idle) :=
  processConnection_noMatch_clears connW2 fieldsW2 stW2 csW2 "rateToEuro"
    (by decide) (by decide) (by decide) (by decide)

/-- Witness for the first-match claim: with two rows sharing the symbol
`$`, the lookup returns the earlier US dollar row. -/
theorem lookup_first_match_wins_witness :
    findMatch "symbol" ([rowEur] ++ rowUsd :: [rowCad]) (.str "$") = some rowUsd ∧
      ∀ (conn : FieldConnection) (fields : List FieldConfig) (st : FormSt) (cs : CalcSt),
        conn.sourceField = "symbol" → conn.lookupSet = [rowEur] ++ rowUsd :: [rowCad] →
        getVal st "symbol" = .str "$" →
        processConnection conn fields st cs = processWithMatch conn fields st cs (some rowUsd) :=
  lookup_first_match_wins "symbol" (.str "$") [rowEur] [rowCad] rowUsd
    (by decide) (by decide)

/-- Witness for the guard claim, at a concrete trace and a concrete
busy state. -/
theorem guard_at_most_one_cycle_witness :
    (runGuard [GuardEvent.change, GuardEvent.change]).running ≤ 1 ∧
      guardStep ⟨true, 1⟩ GuardEvent.change = ⟨true, 1⟩ ∧
      (guardStep ⟨true, 1⟩ (GuardEvent.complete false)).processing = false :=
  ⟨guard_at_most_one_cycle.1 [GuardEvent.change, GuardEvent.change],
    guard_at_most_one_cycle.2.1 ⟨true, 1⟩ rfl,
    guard_at_most_one_cycle.2.2 ⟨true, 1⟩ false⟩

/-- Witness for the API error-message claim: a 404 response with an
unparseable body throws the status fallback. -/
theorem handleResponse_error_message_witness :
    handleResponse ⟨false, 404, none⟩ = .error (claimedErrMsg ⟨none, none⟩ 404) ∧
      ((⟨false, 404, none⟩ : HttpResponse).body = none →
        handleResponse ⟨false, 404, none⟩ = .error (statusFallback 404)) :=
  handleResponse_error_message ⟨false, 404, none⟩ rfl

/-- Witness for the rate-inversion claim: a provider rate of `2` for
`USD` yields the rounded inverse `1 / 2`. -/
theorem getCurrencyRate_inverts_rate_witness :
    getCurrencyRateRun rateEnvW "USD" = .ok (some (toFixed6Rat (1 / 2)), true) :=
  getCurrencyRate_inverts_rate rateEnvW "USD" "key" 200 rateBodyW 2
    rfl (by decide) (by decide) rfl rfl (by decide) (by decide)

/-- Witness for the guard-and-totality claim of the rate lookup: a
two-letter code and a missing key return `null` without a request, and
a rejected fetch is caught and mapped to `null`. -/
theorem getCurrencyRate_guards_total_witness :
    getCurrencyRateRun rateEnvKey "US" = .ok (none, false) ∧
      getCurrencyRateRun rateEnvNoKey "USD" = .ok (none, false) ∧
      getCurrencyRateRun rateEnvKey "USD" = .ok (none, true) :=
  ⟨(getCurrencyRate_guards_total rateEnvKey "US").1 (by decide),
    (getCurrencyRate_guards_total rateEnvNoKey "USD").2.1 (by decide),
    (getCurrencyRate_guards_total rateEnvKey "USD").2.2.2 "fetch failed"
      (by decide) (by decide) (by decide)⟩

end InvernBackoffice
